import Mathlib

/-!
Shallow embedding of the OCR-driven sensitive-region detection and redaction
engine of the Mask-Image repository (`src/ocr_mask.py`, `src/patterns.py`,
`src/types.py`), together with theorems settling the frozen claims about it.

The OCR oracle (`pytesseract.image_to_data`) is external and is modelled as a
parameter `Oracle : Img → Except Unit (List Token)`: a call either returns the
token rows of the `Output.DICT` dictionary or raises (`TesseractError`,
modelled as `Except.error ()`).  Python `float` arithmetic on the downscale
factor is modelled with exact rationals; Python's `int(...)` truncation toward
zero is `truncQ` below.
-/

namespace MaskImage

/-- One row of the pytesseract `Output.DICT` data dictionary (the keys the
code reads: `block_num`, `par_num`, `line_num`, `left`, `top`, `width`,
`height`, `conf`, `text`; the remaining keys `level`, `page_num`, `word_num`
are carried along verbatim by the tiling merge).  `conf` models
`float(str(data['conf'][i]))`: `some q` when the parse succeeds with value
`q`, `none` when `float` raises (the `except` path of the code). -/
structure Token where
  level : ℤ := 1
  page_num : ℤ := 1
  block_num : ℤ
  par_num : ℤ
  line_num : ℤ
  word_num : ℤ := 1
  left : ℤ
  top : ℤ
  width : ℤ
  height : ℤ
  conf : Option ℚ
  text : String
  deriving Repr, DecidableEq

/-- `RedactionBox` of `src/types.py`. -/
structure RedactionBox where
  x : ℤ
  y : ℤ
  w : ℤ
  h : ℤ
  label : String
  deriving Repr, DecidableEq

/-- The pixel-colour triple of an OpenCV BGR image. -/
abbrev Color := ℕ × ℕ × ℕ

/-- `MaskConfig` of `src/types.py` (the `tesseract_cmd` override only selects
the oracle executable and is absorbed into the oracle parameter; `lang` is
likewise only ever passed through to the oracle). -/
structure MaskConfig where
  lang : String := "eng"
  mask_color : Color := (0, 0, 0)
  mask_padding : ℤ := 4
  deriving Repr, DecidableEq

/-- The image values handed to the OCR oracle by `_image_to_data_tiled`: the
image as given, a horizontal strip `image_bgr[y:y2, :]`, or a `cv2.resize`d
copy with explicit target width and height. -/
inductive Img where
  | whole (height width : ℕ)
  | crop (base : Img) (y y2 : ℕ)
  | resized (base : Img) (width height : ℕ)
  deriving Repr, DecidableEq

/-- `image.shape[0]`.  A numpy row slice `a[y:y2]` clamps both bounds to the
array length, which the truncated subtraction `min y2 h - min y h` captures. -/
def Img.height : Img → ℕ
  | .whole h _ => h
  | .crop b y y2 => min y2 b.height - min y b.height
  | .resized _ _ h => h

/-- `image.shape[1]` (strips span the full width; a resize sets it). -/
def Img.width : Img → ℕ
  | .whole _ w => w
  | .crop b _ _ => b.width
  | .resized _ w _ => w

/-- The OCR oracle: one `pytesseract.image_to_data(..., output_type=DICT)`
call, returning the token rows or raising `TesseractError`. -/
abbrev Oracle := Img → Except Unit (List Token)

/-- Python `int(q)` on a real value: truncation toward zero. -/
def truncQ (q : ℚ) : ℤ := if 0 ≤ q then ⌊q⌋ else -⌊-q⌋

/-- The downscale factor of the fallback path (line 53 of `ocr_mask.py`):
`min(1.0, max_tile_height / max(1, tile.shape[0])) * 0.9`. -/
def scaleQ (maxTileHeight tileHeight : ℕ) : ℚ :=
  min 1 ((maxTileHeight : ℚ) / ((max 1 tileHeight : ℕ) : ℚ)) * (9 / 10)

/-- A resize target dimension, `int(tile.shape[i] * scale)`. -/
def scaledDim (dim : ℕ) (s : ℚ) : ℕ := (truncQ ((dim : ℚ) * s)).toNat

/-- Scaling token positions back after a downscaled retry (lines 58–64):
`int(v * sx)` resp. `int(v * sy)` applied to `left`, `top`, `width`,
`height`. -/
def rescaleToken (sx sy : ℚ) (t : Token) : Token :=
  { t with
    left := truncQ ((t.left : ℚ) * sx)
    top := truncQ ((t.top : ℚ) * sy)
    width := truncQ ((t.width : ℚ) * sx)
    height := truncQ ((t.height : ℚ) * sy) }

/-- One strip's oracle interaction with the failure fallback of
`_image_to_data_tiled` (lines 49–66 of `ocr_mask.py`): try the strip; on a
`TesseractError`, compute the downscale factor, and — when it is `< 1` —
resize and retry once (a failure of the retry is not caught), scaling the
returned boxes back up by the ratios of the true to the resized dimensions;
otherwise re-raise the original error. -/
def ocrTile (oracle : Oracle) (maxTileHeight : ℕ) (tile : Img) :
    Except Unit (List Token) :=
  match oracle tile with
  | .ok data => .ok data
  | .error e =>
    let scale := scaleQ maxTileHeight tile.height
    if scale < 1 then
      let small := Img.resized tile (scaledDim tile.width scale)
        (scaledDim tile.height scale)
      match oracle small with
      | .ok data =>
        let sx : ℚ := (tile.width : ℚ) / ((max 1 small.width : ℕ) : ℚ)
        let sy : ℚ := (tile.height : ℚ) / ((max 1 small.height : ℕ) : ℚ)
        .ok (data.map (rescaleToken sx sy))
      | .error e2 => .error e2
    else .error e

/-- The strip start offsets produced by the `while y < h` loop of
`_image_to_data_tiled` (lines 42–48 and 74–77): starting from `y`, each
iteration records the strip `[y, min (y + maxTileHeight) h)`, stops when that
strip reaches the image bottom, and otherwise advances `y` by
`step = max (maxTileHeight - overlap) 1000`.  The loop advances `y` by at
least `1000` per iteration, so `h + 1` iterations always suffice; the `fuel`
argument only makes the recursion structural. -/
def tileStartsAux (h maxTileHeight overlap : ℕ) : ℕ → ℕ → List ℕ
  | 0, _ => []
  | fuel + 1, y =>
    if y < h then
      let y2 := min (y + maxTileHeight) h
      if h ≤ y2 then [y]
      else y :: tileStartsAux h maxTileHeight overlap fuel
        (y + max (maxTileHeight - overlap) 1000)
    else []

/-- The list of strip start offsets for an image of height `h`. -/
def tileStarts (h maxTileHeight overlap : ℕ) : List ℕ :=
  tileStartsAux h maxTileHeight overlap (h + 1) 0

/-- The merge loop's `top` adjustment (lines 68–73): every key of a strip's
data is appended verbatim except `top`, which is shifted by the strip's
vertical offset. -/
def offsetTokens (y : ℕ) (data : List Token) : List Token :=
  data.map fun t => { t with top := t.top + (y : ℤ) }

/-- `_image_to_data_tiled` (lines 28–79 of `ocr_mask.py`): images of height
`≤ max_tile_height` are submitted whole in a single oracle call whose result
is returned as is; taller images are cut into the strips of `tileStarts`,
each strip is run through `ocrTile`, and the results are concatenated in
strip order with `top` offset-adjusted.  An uncaught oracle error aborts the
whole image (the `Except` bind). -/
def _image_to_data_tiled (oracle : Oracle) (img : Img)
    (maxTileHeight : ℕ := 7000) (overlap : ℕ := 40) :
    Except Unit (List Token) :=
  if img.height ≤ maxTileHeight then oracle img
  else
    (tileStarts img.height maxTileHeight overlap).foldlM
      (fun acc y =>
        let y2 := min (y + maxTileHeight) img.height
        (ocrTile oracle maxTileHeight (Img.crop img y y2)).map
          (fun data => acc ++ offsetTokens y data))
      []

/-- The dictionary key `(block_num, par_num, line_num)` used for line
grouping. -/
abbrev LineKey := ℤ × ℤ × ℤ

/-- A token bounding box `(left, top, width, height)`. -/
abbrev TokBox := ℤ × ℤ × ℤ × ℤ

/-- One entry of the per-line dictionaries: the token texts (`text_parts` in
`ocr_with_boxes`, `words` in `detect_sensitive_regions`) and the token
boxes, both in emission order. -/
structure LineInfo where
  words : List String
  boxes : List TokBox
  deriving Repr, DecidableEq

/-- Python `text.strip()`: remove leading and trailing whitespace. -/
def pyStrip (s : String) : String :=
  ⟨((s.data.dropWhile Char.isWhitespace).reverse.dropWhile
      Char.isWhitespace).reverse⟩

/-- The confidence value a token is treated as having:
`float(str(data['conf'][i]))` when it parses, and `-1.0` when the parse
raises (lines 93–97 resp. 127–131 of `ocr_mask.py`). -/
def confValue (t : Token) : ℚ := t.conf.getD (-1)

/-- `dict.setdefault` + append on a Python dict modelled as an insertion
ordered association list: the first occurrence of a key fixes its position,
later tokens with the same key append to that entry. -/
def addToLineMap : List (LineKey × LineInfo) → LineKey → String → TokBox →
    List (LineKey × LineInfo)
  | [], k, w, b => [(k, ⟨[w], [b]⟩)]
  | (k', info) :: rest, k, w, b =>
    if k' = k then (k', ⟨info.words ++ [w], info.boxes ++ [b]⟩) :: rest
    else (k', info) :: addToLineMap rest k w b

/-- One iteration of the line-grouping loop: skip a token whose text is
empty or whitespace only, skip a token whose (parsed-or-`-1.0`) confidence
is negative, and group the rest by `(block_num, par_num, line_num)`. -/
def lineStep (m : List (LineKey × LineInfo)) (t : Token) :
    List (LineKey × LineInfo) :=
  if t.text = "" ∨ pyStrip t.text = "" then m
  else if confValue t < 0 then m
  else addToLineMap m (t.block_num, t.par_num, t.line_num) t.text
    (t.left, t.top, t.width, t.height)

/-- The line-grouping loop that appears verbatim in both OCR passes
(`ocr_with_boxes`, lines 89–104, and `detect_sensitive_regions`, lines
123–138 of `ocr_mask.py`). -/
def buildLineMap (tokens : List Token) : List (LineKey × LineInfo) :=
  tokens.foldl lineStep []

/-- Lexicographic comparison of `lineKey`s, as Python's tuple `<` used by
`sorted(lines.items(), key=lambda x: x[0])`. -/
def keyLe (a b : LineKey) : Bool :=
  if a.1 ≠ b.1 then decide (a.1 < b.1)
  else if a.2.1 ≠ b.2.1 then decide (a.2.1 < b.2.1)
  else decide (a.2.2 ≤ b.2.2)

/-- Insertion step of a stable sort by `lineKey` (the keys of a dict are
distinct, so any sort agrees with Python's `sorted`). -/
def insertByKey (x : LineKey × LineInfo) :
    List (LineKey × LineInfo) → List (LineKey × LineInfo)
  | [] => [x]
  | y :: ys => if keyLe x.1 y.1 then x :: y :: ys else y :: insertByKey x ys

/-- `sorted(lines.items(), key=lambda x: x[0])`. -/
def sortLines (l : List (LineKey × LineInfo)) : List (LineKey × LineInfo) :=
  l.foldr insertByKey []

/-- `OCRResult` of `src/types.py`. -/
structure OCRResult where
  text : String
  boxes : List RedactionBox
  deriving Repr, DecidableEq

/-- `ocr_with_boxes` (lines 82–112 of `ocr_mask.py`): tiled OCR, line
assembly, and the newline-joined transcript of the space-joined per-line
texts in ascending `lineKey` order.  The returned `boxes` list is always
empty in the source. -/
def ocr_with_boxes (oracle : Oracle) (img : Img) : Except Unit OCRResult :=
  (_image_to_data_tiled oracle img 7000 40).map fun data =>
    let lines := buildLineMap data
    let full_text := String.intercalate "\n"
      ((sortLines lines).map fun li => String.intercalate " " li.2.words)
    ⟨full_text, []⟩

/-- A compiled regular expression (`re.compile(p, flags=re.IGNORECASE)`),
modelled abstractly: its source string (`pattern.pattern`) and its search
behaviour — `search text = true` iff `pattern.finditer(text)` yields at
least one match.  The regex engine itself is external (the `re` module), so
it enters the embedding as an oracle, exactly like the OCR engine. -/
structure Pattern where
  source : String
  search : String → Bool

/-- `PatternSet` of `src/patterns.py`. -/
structure PatternSet where
  patterns : List Pattern

/-- `PatternSet.from_strings` (lines 24–26 of `patterns.py`): compile every
string of the input, in order — `cls(patterns=[re.compile(p,
flags=re.IGNORECASE) for p in pats])`.  `compile` is the `re.compile`
oracle. -/
def PatternSet.from_strings (compile : String → Pattern)
    (pats : List String) : PatternSet :=
  ⟨pats.map compile⟩

/-- `PatternSet.find_matches` (lines 88–93 of `patterns.py`) collects
`(pattern, span)` pairs over all patterns; the sole consumer only tests the
result for emptiness, so the spans are abstracted away and the list of
patterns having at least one match is kept. -/
def PatternSet.find_matches (ps : PatternSet) (text : String) : List Pattern :=
  ps.patterns.filter fun p => p.search text

/-- The merged line rectangle of `detect_sensitive_regions` (lines 146–154
of `ocr_mask.py`): `x1 = max(min(xs) - padding, 0)`,
`y1 = max(min(ys) - padding, 0)`, `x2 = max(x + w) + padding`,
`y2 = max(y + h) + padding`, emitted as `RedactionBox(x1, y1, x2 - x1,
y2 - y1, 'sensitive')`.  Entries of the line map always carry at least one
box, so the `[]` case is unreachable. -/
def lineBox (padding : ℤ) : List TokBox → RedactionBox
  | [] => ⟨0, 0, 0, 0, "sensitive"⟩
  | b :: bs =>
    let minL := bs.foldl (fun m c => min m c.1) b.1
    let minT := bs.foldl (fun m c => min m c.2.1) b.2.1
    let maxR := bs.foldl (fun m c => max m (c.1 + c.2.2.1)) (b.1 + b.2.2.1)
    let maxB := bs.foldl (fun m c => max m (c.2.1 + c.2.2.2)) (b.2.1 + b.2.2.2)
    let x1 := max (minL - padding) 0
    let y1 := max (minT - padding) 0
    let x2 := maxR + padding
    let y2 := maxB + padding
    ⟨x1, y1, x2 - x1, y2 - y1, "sensitive"⟩

/-- One iteration of the detection loop (lines 140–154 of `ocr_mask.py`):
join the line's words with single spaces, and append the padded merged line
rectangle when `find_matches` on the joined text is non-empty. -/
def detectStep (patterns : PatternSet) (cfg : MaskConfig)
    (red : List RedactionBox) (li : LineKey × LineInfo) :
    List RedactionBox :=
  let text_line := String.intercalate " " li.2.words
  if (patterns.find_matches text_line).isEmpty then red
  else red ++ [lineBox cfg.mask_padding li.2.boxes]

/-- `detect_sensitive_regions` (lines 115–156 of `ocr_mask.py`): word-level
tiled OCR, the same line grouping as the transcript pass, and — for every
line whose space-joined text has a non-empty `find_matches` result — the
padded merged line rectangle. -/
def detect_sensitive_regions (oracle : Oracle) (img : Img)
    (patterns : PatternSet) (cfg : MaskConfig) :
    Except Unit (List RedactionBox) :=
  (_image_to_data_tiled oracle img 7000 40).map fun data =>
    (buildLineMap data).foldl (detectStep patterns cfg) []

/-- An OpenCV image: a height × width grid of BGR pixels (`pix` row col). -/
structure PixImage where
  height : ℕ
  width : ℕ
  pix : ℕ → ℕ → Color

/-- `cv2.rectangle(out, (x1, y1), (x2, y2), color, thickness=-1)`: OpenCV
draws the filled rectangle whose two *opposite corners* are the given points
— the corner pair is normalised, both corners are included, and drawing is
clipped to the image (clipping is left implicit here: statements only ever
inspect in-bounds pixels). -/
def rectangleFilled (img : PixImage) (x1 y1 x2 y2 : ℤ) (color : Color) :
    PixImage :=
  { img with
    pix := fun r c =>
      if min x1 x2 ≤ (c : ℤ) ∧ (c : ℤ) ≤ max x1 x2 ∧
          min y1 y2 ≤ (r : ℤ) ∧ (r : ℤ) ≤ max y1 y2
      then color else img.pix r c }

/-- `apply_redactions` (lines 159–167 of `ocr_mask.py`): on a copy of the
image, for each box clamp `x1, y1` below by `0`, clamp `x2 = x + w`,
`y2 = y + h` above by the image width resp. height, and fill the rectangle
with the mask colour. -/
def apply_redactions (img : PixImage) (redactions : List RedactionBox)
    (cfg : MaskConfig) : PixImage :=
  redactions.foldl
    (fun out r =>
      let x1 := max r.x 0
      let y1 := max r.y 0
      let x2 := min (r.x + r.w) (out.width : ℤ)
      let y2 := min (r.y + r.h) (out.height : ℤ)
      rectangleFilled out x1 y1 x2 y2 cfg.mask_color)
    img

/-! Concrete instances used by the counterexamples and witnesses below. -/

/-- A token carrying the line key `(1, 1, 1)` — the key Tesseract assigns to
the first line of the first paragraph of the first block of *every* call. -/
def tokC1 (topv : ℤ) : Token :=
  { block_num := 1, par_num := 1, line_num := 1, left := 3, top := topv,
    width := 10, height := 12, conf := some 95, text := "w" }

/-- An oracle that finds the token `tokC1 5` in every region it is shown
(as Tesseract does for visually identical strips). -/
def oracleC1 : Oracle := fun _ => .ok [tokC1 5]

/-- A high-confidence token hugging the right edge of a 100-px-wide image. -/
def tokC2 : Token :=
  { block_num := 1, par_num := 1, line_num := 1, left := 95, top := 5,
    width := 5, height := 8, conf := some 90, text := "key" }

/-- An oracle returning exactly `tokC2`. -/
def oracleC2 : Oracle := fun _ => .ok [tokC2]

/-- A pattern set whose single pattern (regex `.*`) matches every line. -/
def psAll : PatternSet := ⟨[⟨".*", fun _ => true⟩]⟩

/-- A `re.compile` oracle instance (match behaviour irrelevant to C3). -/
def compileC3 : String → Pattern := fun s => ⟨s, fun _ => false⟩

/-- The compiled regex `^ba$`: `finditer` finds a match exactly in the
string `"ba"` itself. -/
def psC4 : PatternSet := ⟨[⟨"^ba$", fun s => s == "ba"⟩]⟩

/-- First token of the C4 line: text `"ba"`, box `(10, 20, 60, 15)`. -/
def tokC4a : Token :=
  { block_num := 1, par_num := 1, line_num := 1, left := 10, top := 20,
    width := 60, height := 15, conf := some 90, text := "ba" }

/-- Second token of the C4 line: text `"c"`, box `(70, 25, 40, 15)`. -/
def tokC4b : Token :=
  { block_num := 1, par_num := 1, line_num := 1, left := 70, top := 25,
    width := 40, height := 15, conf := some 90, text := "c" }

/-- An oracle returning the two-token line `"ba c"`. -/
def oracleC4 : Oracle := fun _ => .ok [tokC4a, tokC4b]

/-- An oracle that finds nothing (and never fails). -/
def oracleC6 : Oracle := fun _ => .ok []

/-- An oracle that fails on every region except resized ones (a strip that
exceeds the engine's resource limit until it is downscaled). -/
def oracleC7 : Oracle := fun i =>
  match i with
  | .resized _ _ _ => .ok []
  | _ => .error ()

/-- The first strip of an 8000-px-tall image under the default limits. -/
def tileC7 : Img := Img.crop (Img.whole 8000 600) 0 7000

/-- A 2 × 2 image, every pixel `(7, 7, 7)`. -/
def imgC8 : PixImage := ⟨2, 2, fun _ _ => (7, 7, 7)⟩

/-- A redaction box lying entirely to the left of any image: it covers
columns `[-5, -3)`, so its clip to the image is empty. -/
def boxC8 : RedactionBox := ⟨-5, 0, 2, 1, "sensitive"⟩

/-- A token whose confidence string did not parse (`float` raised). -/
def tokC10 : Token :=
  { block_num := 2, par_num := 1, line_num := 1, left := 4, top := 6,
    width := 9, height := 11, conf := none, text := "secret" }

/-! Theorems settling the claims. -/

/-- C1: the merged stream of `_image_to_data_tiled` keeps each tile's
`block_num`/`par_num`/`line_num` verbatim, so on an 8000-px image (two
strips under the default `H_max = 7000`, `O = 40`) an oracle that labels the
first line of every call `(1, 1, 1)` yields two tokens from *different*
strips (tops 5 and 5 + 6960) sharing the same `lineKey`, and line assembly
groups them into a single line — refuting the claim that tokens from
different tile strips never share a `lineKey`. -/
theorem C1_code_evaluation :
    _image_to_data_tiled oracleC1 (Img.whole 8000 600) 7000 40 =
      .ok [tokC1 5, tokC1 6965] ∧
    (tokC1 5).top ≠ (tokC1 6965).top ∧
    ((tokC1 5).block_num, (tokC1 5).par_num, (tokC1 5).line_num) =
      ((tokC1 6965).block_num, (tokC1 6965).par_num, (tokC1 6965).line_num) ∧
    buildLineMap [tokC1 5, tokC1 6965] =
      [((1, 1, 1), ⟨["w", "w"], [(3, 5, 10, 12), (3, 6965, 10, 12)]⟩)] :=
  ⟨rfl, by decide, rfl, by decide⟩

/-- C2 (counterexample): `detect_sensitive_regions` clamps only the low
sides of a box.  On a 100-px-wide image a matched token with
`left + width = 100` and padding `4` produces the box `(91, 1, 13, 16)`,
whose `x + w = 104` exceeds the image width — the boxes the detector
returns are *not* clipped to the image on the high sides. -/
theorem C2_counterexample :
    detect_sensitive_regions oracleC2 (Img.whole 30 100) psAll {} =
      .ok [⟨91, 1, 13, 16, "sensitive"⟩] ∧
    ¬ ((91 : ℤ) + 13 ≤ ((Img.whole 30 100).width : ℤ)) :=
  ⟨rfl, by decide⟩

/-- Both corners of a merged line rectangle are clamped below by `0`. -/
theorem lineBox_nonneg (padding : ℤ) (bs : List TokBox) :
    0 ≤ (lineBox padding bs).x ∧ 0 ≤ (lineBox padding bs).y := by
  cases bs with
  | nil => exact ⟨le_refl 0, le_refl 0⟩
  | cons b t => exact ⟨le_max_right _ _, le_max_right _ _⟩

/-- Every box the detection fold appends satisfies the low-side bounds. -/
theorem detectFold_nonneg (ps : PatternSet) (cfg : MaskConfig) :
    ∀ (l : List (LineKey × LineInfo)) (acc : List RedactionBox),
      (∀ r ∈ acc, 0 ≤ r.x ∧ 0 ≤ r.y) →
      ∀ r ∈ l.foldl (detectStep ps cfg) acc, 0 ≤ r.x ∧ 0 ≤ r.y := by
  intro l
  induction l with
  | nil => intro acc hacc; simpa using hacc
  | cons li rest ih =>
    intro acc hacc r hr
    refine ih _ ?_ r hr
    intro r' hr'
    simp only [detectStep] at hr'
    by_cases hm : (ps.find_matches (String.intercalate " " li.2.words)).isEmpty
    · rw [if_pos hm] at hr'
      exact hacc r' hr'
    · rw [if_neg hm] at hr'
      rcases List.mem_append.mp hr' with h | h
      · exact hacc r' h
      · rw [List.mem_singleton.mp h]
        exact lineBox_nonneg _ _

/-- C2 (amended): every `RedactionBox` returned by
`detect_sensitive_regions` satisfies `0 ≤ x` and `0 ≤ y`; the high-side
bounds `x + w ≤ imageWidth`, `y + h ≤ imageHeight` are not established by
the detector (they are only enforced later, when `apply_redactions` clips
the box against the image). -/
theorem C2_amended (oracle : Oracle) (img : Img) (ps : PatternSet)
    (cfg : MaskConfig) (out : List RedactionBox)
    (hout : detect_sensitive_regions oracle img ps cfg = .ok out) :
    ∀ r ∈ out, 0 ≤ r.x ∧ 0 ≤ r.y := by
  unfold detect_sensitive_regions at hout
  cases hdata : _image_to_data_tiled oracle img 7000 40 with
  | error e => rw [hdata] at hout; cases hout
  | ok data =>
    rw [hdata] at hout
    have hfold : (buildLineMap data).foldl (detectStep ps cfg) [] = out := by
      simpa [Except.map] using hout
    rw [← hfold]
    exact detectFold_nonneg ps cfg _ [] (by simp)

/-- C2 witness: the amended theorem applied to the C2 scenario. -/
theorem C2_amended_witness :
    0 ≤ (RedactionBox.mk 91 1 13 16 "sensitive").x ∧
    0 ≤ (RedactionBox.mk 91 1 13 16 "sensitive").y :=
  C2_amended oracleC2 (Img.whole 30 100) psAll {}
    [⟨91, 1, 13, 16, "sensitive"⟩] rfl ⟨91, 1, 13, 16, "sensitive"⟩
    (List.mem_singleton.mpr rfl)

/-- C3 (counterexample): `PatternSet.from_strings` compiles the input list
verbatim — on `["a", "b", "a"]` it yields three patterns, not the two the
claim demands (no deduplication happens in this constructor). -/
theorem C3_counterexample :
    (PatternSet.from_strings compileC3 ["a", "b", "a"]).patterns.length = 3 ∧
    ¬ (PatternSet.from_strings compileC3 ["a", "b", "a"]).patterns.length
        = 2 :=
  ⟨rfl, by decide⟩

/-- C3 (amended): `from_strings` performs no deduplication: it compiles
every input string in first-to-last order, so a list repeating the same
pattern string at positions 0 and 2 yields exactly three patterns whose
sources are the input list unchanged (the repeated pattern at positions 0
and 2).  (`hc` states that `re.compile` preserves the pattern source.) -/
theorem C3_amended (compile : String → Pattern)
    (hc : ∀ s, (compile s).source = s) (p q : String) :
    ((PatternSet.from_strings compile [p, q, p]).patterns.map Pattern.source)
      = [p, q, p] ∧
    (PatternSet.from_strings compile [p, q, p]).patterns.length = 3 := by
  simp [PatternSet.from_strings, hc]

/-- C3 witness: the amended theorem at the concrete input
`["a", "b", "a"]`. -/
theorem C3_amended_witness :
    ((PatternSet.from_strings compileC3 ["a", "b", "a"]).patterns.map
        Pattern.source) = ["a", "b", "a"] ∧
    (PatternSet.from_strings compileC3 ["a", "b", "a"]).patterns.length
      = 3 :=
  C3_amended compileC3 (fun _ => rfl) "a" "b"

/-- C6: for an image whose height is at most the tile limit, the tiling
coordinator returns the single whole-image oracle call verbatim, with no
coordinate adjustment. -/
theorem C6_tiling_identity (oracle : Oracle) (img : Img)
    (maxTileHeight overlap : ℕ) (hle : img.height ≤ maxTileHeight) :
    _image_to_data_tiled oracle img maxTileHeight overlap = oracle img := by
  simp [_image_to_data_tiled, hle]

/-- C6 witness: the identity at a 100-px-tall image under the defaults. -/
theorem C6_tiling_identity_witness :
    _image_to_data_tiled oracleC6 (Img.whole 100 50) 7000 40 =
      oracleC6 (Img.whole 100 50) :=
  C6_tiling_identity oracleC6 (Img.whole 100 50) 7000 40 (by decide)

/-- C8: `apply_redactions` never skips a box.  For a box lying entirely to
the left of the image (columns `[-5, -3)`, empty clip), the clamped corner
pair handed to `cv2.rectangle` is `(0, 0)`–`(-3, 1)`; OpenCV normalises the
corners and fills inclusively, so column 0 of the 2 × 2 image is painted
with the mask colour instead of the image being returned unchanged. -/
theorem C8_code_evaluation :
    boxC8.x + boxC8.w ≤ 0 ∧
    imgC8.pix 0 0 = (7, 7, 7) ∧
    (apply_redactions imgC8 [boxC8] {}).pix 0 0 = (0, 0, 0) ∧
    (apply_redactions imgC8 [boxC8] {}).pix 1 0 = (0, 0, 0) :=
  ⟨by decide, rfl, rfl, rfl⟩

/-- Provenance of the words of a line map after one insertion: every word
either is the inserted one or was already present. -/
theorem addToLineMap_words_mem (m : List (LineKey × LineInfo)) (k : LineKey)
    (w : String) (b : TokBox) :
    ∀ li ∈ addToLineMap m k w b, ∀ w' ∈ li.2.words,
      w' = w ∨ ∃ li' ∈ m, w' ∈ li'.2.words := by
  induction m with
  | nil =>
    intro li hli w' hw'
    simp only [addToLineMap, List.mem_singleton] at hli
    subst hli
    simp only [List.mem_singleton] at hw'
    exact Or.inl hw'
  | cons hd rest ih =>
    obtain ⟨k', info⟩ := hd
    intro li hli w' hw'
    simp only [addToLineMap] at hli
    by_cases hk : k' = k
    · rw [if_pos hk] at hli
      rcases List.mem_cons.mp hli with rfl | hmem
      · rcases List.mem_append.mp hw' with h | h
        · exact Or.inr ⟨(k', info), List.mem_cons_self _ _, h⟩
        · exact Or.inl (List.mem_singleton.mp h)
      · exact Or.inr ⟨li, List.mem_cons_of_mem _ hmem, hw'⟩
    · rw [if_neg hk] at hli
      rcases List.mem_cons.mp hli with rfl | hmem
      · exact Or.inr ⟨(k', info), List.mem_cons_self _ _, hw'⟩
      · rcases ih li hmem w' hw' with h | ⟨li', hli', hw''⟩
        · exact Or.inl h
        · exact Or.inr ⟨li', List.mem_cons_of_mem _ hli', hw''⟩

/-- The grouping fold preserves "no line word is empty or whitespace". -/
theorem lineFold_words_clean (ts : List Token) :
    ∀ m : List (LineKey × LineInfo),
      (∀ li ∈ m, ∀ w ∈ li.2.words, ¬ (w = "" ∨ pyStrip w = "")) →
      ∀ li ∈ ts.foldl lineStep m, ∀ w ∈ li.2.words,
        ¬ (w = "" ∨ pyStrip w = "") := by
  induction ts with
  | nil => intro m hm; simpa using hm
  | cons t ts ih =>
    intro m hm
    refine ih (lineStep m t) ?_
    intro li hli w hw
    unfold lineStep at hli
    by_cases h1 : t.text = "" ∨ pyStrip t.text = ""
    · rw [if_pos h1] at hli
      exact hm li hli w hw
    · rw [if_neg h1] at hli
      by_cases h2 : confValue t < 0
      · rw [if_pos h2] at hli
        exact hm li hli w hw
      · rw [if_neg h2] at hli
        rcases addToLineMap_words_mem m _ _ _ li hli w hw with rfl | ⟨li', h', hw'⟩
        · exact h1
        · exact hm li' h' w hw'

/-- Dropping the tokens a given `lineStep` guard skips does not change the
fold (generalised accumulator form). -/
theorem lineFold_filter_skipped (p : Token → Bool)
    (hp : ∀ t, p t = false → ∀ m, lineStep m t = m) (ts : List Token) :
    ∀ m : List (LineKey × LineInfo),
      ts.foldl lineStep m = (ts.filter p).foldl lineStep m := by
  induction ts with
  | nil => intro m; rfl
  | cons t ts ih =>
    intro m
    by_cases hpt : p t
    · rw [List.filter_cons_of_pos hpt]
      exact ih (lineStep m t)
    · rw [List.filter_cons_of_neg (by simpa using hpt), List.foldl_cons,
        hp t (by simpa using hpt) m]
      exact ih m

/-- C9: in the line-grouping loop shared by the transcript pass
(`ocr_with_boxes`) and the region-detection pass
(`detect_sensitive_regions`), every token whose text is empty or
whitespace-only is excluded: filtering such tokens out of the stream leaves
the assembled line map (texts and box lists alike) unchanged, and no
assembled line's word list contains an empty or whitespace-only text. -/
theorem C9_whitespace_tokens_excluded :
    (∀ tokens : List Token,
      buildLineMap tokens =
        buildLineMap (tokens.filter fun t =>
          ! decide (t.text = "" ∨ pyStrip t.text = ""))) ∧
    (∀ tokens : List Token, ∀ li ∈ buildLineMap tokens, ∀ w ∈ li.2.words,
      ¬ (w = "" ∨ pyStrip w = "")) := by
  constructor
  · intro tokens
    refine lineFold_filter_skipped _ ?_ tokens []
    intro t ht m
    have h1 : t.text = "" ∨ pyStrip t.text = "" := by
      by_contra hcon
      rw [decide_eq_false hcon] at ht
      simp at ht
    unfold lineStep
    rw [if_pos h1]
  · intro tokens
    exact lineFold_words_clean tokens [] (by simp)

/-- C9 witness: the member `"key"` of the line assembled from `tokC2` is
neither empty nor whitespace. -/
theorem C9_whitespace_tokens_excluded_witness :
    ¬ ("key" = "" ∨ pyStrip "key" = "") :=
  C9_whitespace_tokens_excluded.2 [tokC2]
    ((1, 1, 1), ⟨["key"], [(95, 5, 5, 8)]⟩) (by decide) "key" (by decide)

/-- A token whose confidence is unparseable is skipped by `lineStep`. -/
theorem lineStep_none_conf (t : Token) (hc : t.conf = none)
    (m : List (LineKey × LineInfo)) : lineStep m t = m := by
  unfold lineStep
  by_cases h1 : t.text = "" ∨ pyStrip t.text = ""
  · rw [if_pos h1]
  · rw [if_neg h1, if_pos ?_]
    rw [confValue, hc]
    norm_num

/-- C10: in both OCR passes, a token whose confidence string does not parse
as a number (`float(...)` raises) is treated as having confidence `-1.0`,
which is negative, so the token is silently excluded from line assembly
instead of raising: filtering all such tokens out of the stream leaves the
assembled line map unchanged. -/
theorem C10_unparseable_conf_excluded :
    (∀ t : Token, t.conf = none → confValue t = -1 ∧ confValue t < 0) ∧
    (∀ tokens : List Token,
      buildLineMap tokens =
        buildLineMap (tokens.filter fun t => t.conf.isSome)) := by
  constructor
  · intro t ht
    rw [confValue, ht]
    exact ⟨rfl, by norm_num⟩
  · intro tokens
    refine lineFold_filter_skipped _ ?_ tokens []
    intro t ht m
    refine lineStep_none_conf t ?_ m
    cases hc : t.conf with
    | none => rfl
    | some q => rw [hc] at ht; simp at ht

/-- C10 witness: the unparseable-confidence token `tokC10` is treated as
confidence `-1`, hence negative. -/
theorem C10_unparseable_conf_excluded_witness :
    confValue tokC10 = -1 ∧ confValue tokC10 < 0 :=
  C10_unparseable_conf_excluded.1 tokC10 rfl

/-- The detection fold only ever appends to its accumulator. -/
theorem detectFold_append (ps : PatternSet) (cfg : MaskConfig) :
    ∀ (l : List (LineKey × LineInfo)) (acc : List RedactionBox),
      l.foldl (detectStep ps cfg) acc =
        acc ++ l.foldl (detectStep ps cfg) [] := by
  intro l
  induction l with
  | nil => intro acc; simp
  | cons li rest ih =>
    intro acc
    rw [List.foldl_cons, List.foldl_cons, ih (detectStep ps cfg acc li),
      ih (detectStep ps cfg [] li)]
    have hstep : detectStep ps cfg acc li =
        acc ++ detectStep ps cfg [] li := by
      unfold detectStep
      by_cases hm :
          (ps.find_matches (String.intercalate " " li.2.words)).isEmpty
      · rw [if_pos hm, if_pos hm, List.append_nil]
      · rw [if_neg hm, if_neg hm, List.nil_append]
    rw [hstep, List.append_assoc]

/-- Every matched line of the line map contributes its padded merged
rectangle to the detection fold's result. -/
theorem detectFold_mem (ps : PatternSet) (cfg : MaskConfig) :
    ∀ (l : List (LineKey × LineInfo)) (acc : List RedactionBox),
      ∀ li ∈ l,
        (ps.find_matches (String.intercalate " " li.2.words)).isEmpty
          = false →
        lineBox cfg.mask_padding li.2.boxes ∈
          l.foldl (detectStep ps cfg) acc := by
  intro l
  induction l with
  | nil => intro acc li hli; cases hli
  | cons hd rest ih =>
    intro acc li hli hmatch
    rcases List.mem_cons.mp hli with rfl | hmem
    · rw [List.foldl_cons, detectFold_append,
        show detectStep ps cfg acc li =
            acc ++ [lineBox cfg.mask_padding li.2.boxes] by
          unfold detectStep
          rw [if_neg (by rw [hmatch]; exact Bool.false_ne_true)]]
      simp
    · rw [List.foldl_cons]
      exact ih (detectStep ps cfg acc hd) li hmem hmatch

/-- C4 (counterexample): the detector matches patterns against the
*space-joined line text*, not against individual token texts.  With the
compiled regex `^ba$` (which has a match in the string `"ba"` and in no
longer string), a line made of the tokens `"ba"` and `"c"` contains a token
whose text matches the pattern, yet `detect_sensitive_regions` emits no
`RedactionBox` at all, because the joined line text `"ba c"` has no
match. -/
theorem C4_counterexample :
    (psC4.find_matches tokC4a.text).length = 1 ∧
    detect_sensitive_regions oracleC4 (Img.whole 100 200) psC4 {} =
      .ok [] :=
  ⟨rfl, rfl⟩

/-- C4 (amended): for every assembled line whose space-joined text has at
least one pattern match, the detector emits the `RedactionBox` with
`x1 = max(min lefts − padding, 0)`, `y1 = max(min tops − padding, 0)`,
`width = (max (left+width) + padding) − x1` and
`height = (max (top+height) + padding) − y1` (the `lineBox` of its token
boxes); in particular, tokens spanning the pixel box `[10,20]–[110,40]`
with padding 4 yield exactly the box `(6, 16, 108, 28)`. -/
theorem C4_amended :
    (∀ (oracle : Oracle) (img : Img) (ps : PatternSet) (cfg : MaskConfig)
        (data : List Token),
      _image_to_data_tiled oracle img 7000 40 = .ok data →
      ∀ li ∈ buildLineMap data,
        (ps.find_matches (String.intercalate " " li.2.words)).isEmpty
          = false →
        ∃ out, detect_sensitive_regions oracle img ps cfg = .ok out ∧
          lineBox cfg.mask_padding li.2.boxes ∈ out) ∧
    lineBox 4 [(10, 20, 60, 15), (70, 25, 40, 15)] =
      ⟨6, 16, 108, 28, "sensitive"⟩ := by
  constructor
  · intro oracle img ps cfg data hdata li hli hmatch
    refine ⟨(buildLineMap data).foldl (detectStep ps cfg) [], ?_, ?_⟩
    · unfold detect_sensitive_regions
      rw [hdata]
      rfl
    · exact detectFold_mem ps cfg _ [] li hli hmatch
  · decide

/-- C4 witness: the amended theorem at the two-token line `"ba c"` and the
match-everything pattern set, under the default padding 4 — the emitted box
is exactly `(6, 16, 108, 28)`. -/
theorem C4_amended_witness :
    ∃ out, detect_sensitive_regions oracleC4 (Img.whole 100 200) psAll {} =
        .ok out ∧
      lineBox (4 : ℤ) [(10, 20, 60, 15), (70, 25, 40, 15)] ∈ out :=
  C4_amended.1 oracleC4 (Img.whole 100 200) psAll {} [tokC4a, tokC4b] rfl
    ((1, 1, 1), ⟨["ba", "c"], [(10, 20, 60, 15), (70, 25, 40, 15)]⟩)
    (by decide) rfl

/-- A start offset at or past the image bottom yields no strips. -/
theorem tileStartsAux_nil (h H o : ℕ) (fuel y : ℕ) (hy : ¬ y < h) :
    tileStartsAux h H o fuel y = [] := by
  cases fuel with
  | zero => rfl
  | succ n => simp [tileStartsAux, hy]

/-- The first strip starts at the loop's current offset. -/
theorem tileStartsAux_head (h H o : ℕ) (fuel y : ℕ) (hy : y < h)
    (hf : 0 < fuel) : (tileStartsAux h H o fuel y).head? = some y := by
  cases fuel with
  | zero => omega
  | succ n =>
    simp only [tileStartsAux, if_pos hy]
    split
    · rfl
    · rfl

/-- Consecutive strip starts are spaced exactly `H − o` apart when the step
clamp `max (H - o) 1000` is inactive. -/
theorem tileStartsAux_chain (h H o : ℕ) (hstep : 1000 ≤ H - o) :
    ∀ fuel y, List.Chain' (fun a b => b = a + (H - o))
      (tileStartsAux h H o fuel y) := by
  have hmax : max (H - o) 1000 = H - o := Nat.max_eq_left hstep
  intro fuel
  induction fuel with
  | zero => intro y; exact List.chain'_nil
  | succ n ih =>
    intro y
    by_cases hy : y < h
    · simp only [tileStartsAux, if_pos hy]
      split
      · exact List.chain'_singleton y
      · rw [List.chain'_cons']
        refine ⟨?_, ih _⟩
        intro b hb
        by_cases hy' : y + max (H - o) 1000 < h
        · cases n with
          | zero =>
            rw [show tileStartsAux h H o 0 (y + max (H - o) 1000) = []
              from rfl] at hb
            simp at hb
          | succ m =>
            rw [tileStartsAux_head h H o (m + 1) _ hy' (Nat.succ_pos m)]
              at hb
            simp only [Option.mem_some_iff] at hb
            omega
        · rw [tileStartsAux_nil h H o n _ hy'] at hb
          simp at hb
    · rw [tileStartsAux_nil h H o (n + 1) y hy]
      exact List.chain'_nil

/-- With sufficient fuel the loop runs to the bottom: the last strip's end
`min (z + H) h` reaches `h`. -/
theorem tileStartsAux_last (h H o : ℕ) (hstep : 1000 ≤ H - o) :
    ∀ fuel y, y < h → h ≤ y + fuel →
      ∃ z, (tileStartsAux h H o fuel y).getLast? = some z ∧ h ≤ z + H := by
  have hmax : max (H - o) 1000 = H - o := Nat.max_eq_left hstep
  intro fuel
  induction fuel with
  | zero => intro y hy hf; omega
  | succ n ih =>
    intro y hy hf
    simp only [tileStartsAux, if_pos hy]
    by_cases h2 : h ≤ min (y + H) h
    · rw [if_pos h2]
      have := min_le_left (y + H) h
      exact ⟨y, rfl, by omega⟩
    · rw [if_neg h2]
      have hyH : y + H < h := by
        have hm3 := min_choice (y + H) h
        omega
      have hy'lt : y + max (H - o) 1000 < h := by rw [hmax]; omega
      have hfuel : h ≤ y + max (H - o) 1000 + n := by rw [hmax]; omega
      obtain ⟨z, hz, hzH⟩ := ih (y + max (H - o) 1000) hy'lt hfuel
      have hne : tileStartsAux h H o n (y + max (H - o) 1000) ≠ [] := by
        intro hnil
        rw [hnil] at hz
        cases hz
      obtain ⟨b, L, hbl⟩ := List.exists_cons_of_ne_nil hne
      refine ⟨z, ?_, hzH⟩
      rw [hbl, List.getLast?_cons_cons, ← hbl, hz]

/-- With sufficient fuel every row below the image bottom is covered by a
strip. -/
theorem tileStartsAux_cover (h H o : ℕ) (hstep : 1000 ≤ H - o) :
    ∀ fuel y r, y ≤ r → r < h → h ≤ y + fuel →
      ∃ s ∈ tileStartsAux h H o fuel y, s ≤ r ∧ r < min (s + H) h := by
  have hmax : max (H - o) 1000 = H - o := Nat.max_eq_left hstep
  intro fuel
  induction fuel with
  | zero => intro y r hyr hrh hf; omega
  | succ n ih =>
    intro y r hyr hrh hf
    have hy : y < h := lt_of_le_of_lt hyr hrh
    simp only [tileStartsAux, if_pos hy]
    by_cases h2 : h ≤ min (y + H) h
    · rw [if_pos h2]
      refine ⟨y, List.mem_singleton.mpr rfl, hyr, ?_⟩
      rw [le_antisymm (min_le_right _ _) h2]
      exact hrh
    · rw [if_neg h2]
      have hyH : y + H < h := by
        have hm3 := min_choice (y + H) h
        omega
      by_cases hr2 : r < y + H
      · refine ⟨y, List.mem_cons_self _ _, hyr, ?_⟩
        rw [min_eq_left (le_of_lt hyH)]
        exact hr2
      · have h₁ : y + max (H - o) 1000 ≤ r := by rw [hmax]; omega
        have h₂ : h ≤ y + max (H - o) 1000 + n := by rw [hmax]; omega
        obtain ⟨s, hs, hsr, hsr2⟩ := ih (y + max (H - o) 1000) r h₁ hrh h₂
        exact ⟨s, List.mem_cons_of_mem _ hs, hsr, hsr2⟩

/-- C5: for an image taller than the tile limit (with the step clamp
`max (H − o) 1000` inactive, as under the defaults `H = 7000`, `o = 40`
used at every call site), the strip starts computed by the tiling loop —
the strips `[y, min (y + H) h)` that `_image_to_data_tiled` submits to the
oracle — begin at the top, are each at most `H` rows tall, are spaced
exactly `H − o` apart (so consecutive strips overlap by exactly `o` rows),
end with a final strip clipped to the image bottom, and jointly cover every
row of the image. -/
theorem C5_tiling_geometry (img : Img) (H o : ℕ) (htall : H < img.height)
    (hstep : 1000 ≤ H - o) :
    (tileStarts img.height H o).head? = some 0 ∧
    (∀ y ∈ tileStarts img.height H o,
      min (y + H) img.height - y ≤ H) ∧
    List.Chain' (fun a b => b = a + (H - o)) (tileStarts img.height H o) ∧
    (∃ z, (tileStarts img.height H o).getLast? = some z ∧
      min (z + H) img.height = img.height) ∧
    (∀ r, r < img.height → ∃ s ∈ tileStarts img.height H o,
      s ≤ r ∧ r < min (s + H) img.height) := by
  have h0 : 0 < img.height := by omega
  refine ⟨?_, ?_, ?_, ?_, ?_⟩
  · exact tileStartsAux_head img.height H o (img.height + 1) 0 h0
      (Nat.succ_pos _)
  · intro y _
    have := min_le_left (y + H) img.height
    omega
  · exact tileStartsAux_chain img.height H o hstep (img.height + 1) 0
  · obtain ⟨z, hz, hzH⟩ := tileStartsAux_last img.height H o hstep
      (img.height + 1) 0 h0 (by omega)
    exact ⟨z, hz, min_eq_right hzH⟩
  · intro r hr
    exact tileStartsAux_cover img.height H o hstep (img.height + 1) 0 r
      (Nat.zero_le r) hr (by omega)

/-- C5 witness: the geometry at a 2500-px-tall image with `H = 1000`,
`o = 0`. -/
theorem C5_tiling_geometry_witness :
    (tileStarts (Img.whole 2500 10).height 1000 0).head? = some 0 ∧
    (∀ y ∈ tileStarts (Img.whole 2500 10).height 1000 0,
      min (y + 1000) (Img.whole 2500 10).height - y ≤ 1000) ∧
    List.Chain' (fun a b => b = a + (1000 - 0))
      (tileStarts (Img.whole 2500 10).height 1000 0) ∧
    (∃ z, (tileStarts (Img.whole 2500 10).height 1000 0).getLast? = some z ∧
      min (z + 1000) (Img.whole 2500 10).height =
        (Img.whole 2500 10).height) ∧
    (∀ r, r < (Img.whole 2500 10).height →
      ∃ s ∈ tileStarts (Img.whole 2500 10).height 1000 0,
        s ≤ r ∧ r < min (s + 1000) (Img.whole 2500 10).height) :=
  C5_tiling_geometry (Img.whole 2500 10) 1000 0 (by decide) (by decide)

/-- The fallback downscale factor is always strictly below `1` (it is at
most `9/10`), so the `else: raise`-without-retry branch of the fallback is
unreachable: a failed strip is always retried exactly once. -/
theorem scaleQ_lt_one (H th : ℕ) : scaleQ H th < 1 := by
  unfold scaleQ
  have h1 : min 1 ((H : ℚ) / ((max 1 th : ℕ) : ℚ)) ≤ 1 := min_le_left _ _
  have h2 : (0 : ℚ) ≤ min 1 ((H : ℚ) / ((max 1 th : ℕ) : ℚ)) := by
    apply le_min
    · norm_num
    · positivity
  nlinarith

/-- The downscale factor is non-negative. -/
theorem scaleQ_nonneg (H th : ℕ) : (0 : ℚ) ≤ scaleQ H th := by
  unfold scaleQ
  have h2 : (0 : ℚ) ≤ min 1 ((H : ℚ) / ((max 1 th : ℕ) : ℚ)) := by
    apply le_min
    · norm_num
    · positivity
  nlinarith

/-- The retried strip's height fits the oracle's limit with a 10% margin:
`10 * int(tileHeight * scale) ≤ 9 * H`. -/
theorem scaledDim_margin (H th : ℕ) :
    10 * scaledDim th (scaleQ H th) ≤ 9 * H := by
  have hs0 : (0 : ℚ) ≤ scaleQ H th := scaleQ_nonneg H th
  have hq0 : (0 : ℚ) ≤ (th : ℚ) * scaleQ H th :=
    mul_nonneg (by positivity) hs0
  have hub : (th : ℚ) * scaleQ H th ≤ 9 / 10 * (H : ℚ) := by
    unfold scaleQ
    rcases Nat.eq_zero_or_pos th with h0 | hpos
    · subst h0
      simp
    · have hmax : max 1 th = th := Nat.max_eq_right hpos
      rw [hmax]
      have hth : (0 : ℚ) < (th : ℚ) := by exact_mod_cast hpos
      have hmin : (th : ℚ) * min 1 ((H : ℚ) / (th : ℚ)) ≤ (H : ℚ) := by
        calc (th : ℚ) * min 1 ((H : ℚ) / (th : ℚ))
            ≤ (th : ℚ) * ((H : ℚ) / (th : ℚ)) :=
              mul_le_mul_of_nonneg_left (min_le_right _ _) (le_of_lt hth)
          _ = (H : ℚ) := by field_simp
      nlinarith
  have hfl : (10 : ℤ) * ⌊(th : ℚ) * scaleQ H th⌋ ≤ 9 * (H : ℤ) := by
    have h1 : (⌊(th : ℚ) * scaleQ H th⌋ : ℚ) ≤ (th : ℚ) * scaleQ H th :=
      Int.floor_le _
    have h2 : (10 : ℚ) * (⌊(th : ℚ) * scaleQ H th⌋ : ℚ) ≤ 9 * (H : ℚ) := by
      nlinarith
    exact_mod_cast h2
  have hfl0 : 0 ≤ ⌊(th : ℚ) * scaleQ H th⌋ := Int.floor_nonneg.mpr hq0
  unfold scaledDim truncQ
  rw [if_pos hq0]
  omega

/-- When the first oracle call on a strip fails, `ocrTile` resizes and
retries exactly once, rescaling every returned box by the inverse factors;
the retry's own failure is returned as is (uncaught). -/
theorem ocrTile_retry (oracle : Oracle) (H : ℕ) (tile : Img)
    (hfail : oracle tile = .error ()) :
    ocrTile oracle H tile =
      match oracle (Img.resized tile
          (scaledDim tile.width (scaleQ H tile.height))
          (scaledDim tile.height (scaleQ H tile.height))) with
      | .ok data => .ok (data.map (rescaleToken
          ((tile.width : ℚ) /
            ((max 1 (scaledDim tile.width (scaleQ H tile.height)) : ℕ) : ℚ))
          ((tile.height : ℚ) /
            ((max 1 (scaledDim tile.height (scaleQ H tile.height)) : ℕ) : ℚ))))
      | .error e => .error e := by
  unfold ocrTile
  rw [hfail]
  dsimp only
  rw [if_pos (scaleQ_lt_one H tile.height)]
  simp only [Img.width, Img.height]

/-- A strip-processing error anywhere in the tile list makes the whole
`foldlM` return that error: no partial token stream survives. -/
theorem foldlM_map_error {β : Type} (g : β → Except Unit (List Token))
    (comb : List Token → β → List Token → List Token) :
    ∀ (l : List β) (acc : List Token), (∃ y ∈ l, g y = .error ()) →
      l.foldlM (fun acc y => (g y).map (comb acc y)) acc = .error () := by
  intro l
  induction l with
  | nil =>
    intro acc h
    simp at h
  | cons b t ih =>
    rintro acc ⟨y, hy, herr⟩
    rw [List.foldlM_cons]
    cases hgb : g b with
    | error e =>
      cases e
      rfl
    | ok data =>
      rcases List.mem_cons.mp hy with rfl | hyt
      · rw [hgb] at herr
        cases herr
      · exact ih _ ⟨y, hyt, herr⟩

/-- C7: if the oracle call on a strip fails, the coordinator's downscale
factor is strictly below 1 (so it never re-raises without retrying), the
scaled strip height fits the limit with a 10% margin
(`10 * scaledHeight ≤ 9 * H`), the strip is retried exactly once with
every returned box rescaled by the inverse factors (the `top` offset is
added afterwards by the merge loop); and if any strip's processing —
including a failed retry — ends in an error, `_image_to_data_tiled` on the
tall image returns that error: no partial token stream is produced. -/
theorem C7_downscale_retry (oracle : Oracle) (img : Img) (H o : ℕ)
    (tile : Img) (hfail : oracle tile = .error ())
    (htall : H < img.height) :
    scaleQ H tile.height < 1 ∧
    10 * scaledDim tile.height (scaleQ H tile.height) ≤ 9 * H ∧
    (ocrTile oracle H tile =
      match oracle (Img.resized tile
          (scaledDim tile.width (scaleQ H tile.height))
          (scaledDim tile.height (scaleQ H tile.height))) with
      | .ok data => .ok (data.map (rescaleToken
          ((tile.width : ℚ) /
            ((max 1 (scaledDim tile.width (scaleQ H tile.height)) : ℕ) : ℚ))
          ((tile.height : ℚ) /
            ((max 1 (scaledDim tile.height (scaleQ H tile.height)) : ℕ) : ℚ))))
      | .error e => .error e) ∧
    ((∃ y ∈ tileStarts img.height H o,
        ocrTile oracle H (Img.crop img y (min (y + H) img.height)) =
          .error ()) →
      _image_to_data_tiled oracle img H o = .error ()) := by
  refine ⟨scaleQ_lt_one H tile.height, scaledDim_margin H tile.height,
    ocrTile_retry oracle H tile hfail, ?_⟩
  intro hex
  unfold _image_to_data_tiled
  rw [if_neg (by omega)]
  exact foldlM_map_error
    (fun y => ocrTile oracle H (Img.crop img y (min (y + H) img.height)))
    (fun acc y data => acc ++ offsetTokens y data)
    (tileStarts img.height H o) [] hex

/-- C7 witness: the fallback behaviour on the first strip of an
8000-px-tall image whose oracle fails on every non-resized region. -/
theorem C7_downscale_retry_witness :
    scaleQ 7000 tileC7.height < 1 ∧
    10 * scaledDim tileC7.height (scaleQ 7000 tileC7.height) ≤ 9 * 7000 ∧
    (ocrTile oracleC7 7000 tileC7 =
      match oracleC7 (Img.resized tileC7
          (scaledDim tileC7.width (scaleQ 7000 tileC7.height))
          (scaledDim tileC7.height (scaleQ 7000 tileC7.height))) with
      | .ok data => .ok (data.map (rescaleToken
          ((tileC7.width : ℚ) /
            ((max 1 (scaledDim tileC7.width (scaleQ 7000 tileC7.height)) :
              ℕ) : ℚ))
          ((tileC7.height : ℚ) /
            ((max 1 (scaledDim tileC7.height (scaleQ 7000 tileC7.height)) :
              ℕ) : ℚ))))
      | .error e => .error e) ∧
    ((∃ y ∈ tileStarts (Img.whole 8000 600).height 7000 40,
        ocrTile oracleC7 7000 (Img.crop (Img.whole 8000 600) y
          (min (y + 7000) (Img.whole 8000 600).height)) = .error ()) →
      _image_to_data_tiled oracleC7 (Img.whole 8000 600) 7000 40 =
        .error ()) :=
  C7_downscale_retry oracleC7 (Img.whole 8000 600) 7000 40 tileC7 rfl
    (by decide)

end MaskImage
